import Mathlib

/-!
Verification of the task-processing service (tds-project1).

The definitions below are shallow embeddings of the Python source under
`src/`: strings are modelled as `List Char`, remote calls as explicit
outcome parameters, and every fallible operation returns `Except`/`Option`.
Each section names the source function it embeds.
-/

namespace TdsP1

/-! ## Seed placeholder processing (ai_service._process_seed_placeholders) -/

/-- Character list of the reserved placeholder token processed by
`_process_seed_placeholders`. -/
def seedPat : List Char := ['$', '{', 's', 'e', 'e', 'd', '}']

/-- First maximal run of digits in a character list, as found by
`re.search(r'(\d+)', email)`: the earliest digit starts the run, and the run
extends while digits continue. -/
def firstDigitRun : List Char → Option (List Char)
  | [] => none
  | c :: rest =>
    if c.isDigit then some (c :: rest.takeWhile Char.isDigit)
    else firstDigitRun rest

/-- Seed derivation of `_process_seed_placeholders` (ai_service.py lines
207-214): `"default"` unless the email is present, non-empty and contains a
digit run, in which case the first 6 characters of the first run. -/
def deriveSeed : Option String → List Char
  | none => "default".data
  | some e =>
    if e.data = [] then "default".data
    else
      match firstDigitRun e.data with
      | none => "default".data
      | some run => run.take 6

/-- Membership test for the placeholder token, modelling Python's
`"${seed}" in text`. -/
def containsSeed : List Char → Bool
  | [] => false
  | c :: rest => (List.take 7 (c :: rest) == seedPat) || containsSeed rest

/-- Left-to-right non-overlapping replacement of the placeholder token,
modelling `text.replace("${seed}", seed)`. -/
def replaceSeed (repl : List Char) : List Char → List Char
  | [] => []
  | c :: rest =>
    if List.take 7 (c :: rest) = seedPat then
      repl ++ replaceSeed repl (List.drop 6 rest)
    else
      c :: replaceSeed repl rest
termination_by l => l.length
decreasing_by
  all_goals simp [List.length_drop]
  omega

/-- Embedding of `_process_seed_placeholders(text, email)`: a falsy or
placeholder-free text is returned unchanged, otherwise every occurrence of
the placeholder is replaced by the derived seed. -/
def processSeedPlaceholders (email : Option String) (text : List Char) : List Char :=
  if text = [] ∨ containsSeed text = false then text
  else replaceSeed (deriveSeed email) text

/-- Seed derivation as the specification words it: the first 6 digits of the
first run of digits in the identity when one exists, and the literal string
"default" otherwise.  Stated with `dropWhile`/`takeWhile`, to be compared
with the regex-based `deriveSeed` taken from the source. -/
def specSeedOfIdentity (e : String) : List Char :=
  let run := (e.data.dropWhile (fun c => !c.isDigit)).takeWhile Char.isDigit
  if run = [] then "default".data else run.take 6

/-! ## Lemmas about the placeholder scanner -/

lemma replaceSeed_nil (repl : List Char) : replaceSeed repl [] = [] := by
  rw [replaceSeed]

lemma replaceSeed_cons_pos (repl : List Char) (c : Char) (rest : List Char)
    (h : List.take 7 (c :: rest) = seedPat) :
    replaceSeed repl (c :: rest) = repl ++ replaceSeed repl (List.drop 6 rest) := by
  rw [replaceSeed, if_pos h]

lemma replaceSeed_cons_neg (repl : List Char) (c : Char) (rest : List Char)
    (h : ¬(List.take 7 (c :: rest) = seedPat)) :
    replaceSeed repl (c :: rest) = c :: replaceSeed repl rest := by
  rw [replaceSeed, if_neg h]

lemma containsSeed_cons (c : Char) (rest : List Char) :
    containsSeed (c :: rest) =
      ((List.take 7 (c :: rest) == seedPat) || containsSeed rest) := rfl

lemma take_seedPat_head (c : Char) (l : List Char)
    (h : List.take 7 (c :: l) = seedPat) : c = '$' ∧ List.take 6 l = List.drop 1 seedPat := by
  have h' : c :: List.take 6 l = '$' :: List.drop 1 seedPat := h
  exact ⟨(List.cons.injEq _ _ _ _ ▸ h').1, (List.cons.injEq _ _ _ _ ▸ h').2⟩

lemma containsSeed_append_false (x y : List Char) (hx : '$' ∉ x)
    (hy : containsSeed y = false) : containsSeed (x ++ y) = false := by
  induction x with
  | nil => simpa using hy
  | cons c x' ih =>
    have hc : c ≠ '$' := by
      intro h
      exact hx (h ▸ List.mem_cons_self c x')
    have hx' : '$' ∉ x' := fun h => hx (List.mem_cons_of_mem c h)
    rw [List.cons_append, containsSeed_cons]
    refine Bool.or_eq_false_iff.2 ⟨beq_eq_false_iff_ne.2 ?_, ih hx'⟩
    intro h
    exact hc (take_seedPat_head c _ h).1

/-- Agreement of two character lists on their common-length prefix. -/
def agreeChars : List Char → List Char → Bool
  | [], _ => true
  | _, [] => true
  | a :: as, b :: bs => a == b && agreeChars as bs

lemma agreeChars_of_prefix_append (p x y : List Char) (h : p <+: (x ++ y)) :
    agreeChars p x = true := by
  induction p generalizing x y with
  | nil => cases x <;> rfl
  | cons a ps ih =>
    cases x with
    | nil => rfl
    | cons b xs =>
      rw [List.cons_append, List.cons_prefix_cons] at h
      obtain ⟨rfl, h2⟩ := h
      simp [agreeChars, ih xs y h2]

lemma agreeChars_cons_false (a b : Char) (as bs : List Char) (h : (a == b) = false) :
    agreeChars (a :: as) (b :: bs) = false := by
  simp [agreeChars, h]

/-- Replacement strings that can neither start the placeholder token nor
complete one of its proper suffixes: non-empty, free of the token's leading
character, and disagreeing with every proper suffix of the token. -/
def GoodRepl (repl : List Char) : Prop :=
  repl ≠ [] ∧ '$' ∉ repl ∧
  agreeChars (List.drop 1 seedPat) repl = false ∧
  agreeChars (List.drop 2 seedPat) repl = false ∧
  agreeChars (List.drop 3 seedPat) repl = false ∧
  agreeChars (List.drop 4 seedPat) repl = false ∧
  agreeChars (List.drop 5 seedPat) repl = false ∧
  agreeChars (List.drop 6 seedPat) repl = false

lemma replaceSeed_main (repl : List Char) (hg : GoodRepl repl) :
    ∀ n : Nat, ∀ l : List Char, l.length ≤ n →
      containsSeed (replaceSeed repl l) = false ∧
      (∀ j : Nat, 1 ≤ j → j ≤ 6 →
        (List.drop (7 - j) seedPat) <+: replaceSeed repl l →
        (List.drop (7 - j) seedPat) <+: l) := by
  obtain ⟨hne, hdollar, hg1, hg2, hg3, hg4, hg5, hg6⟩ := hg
  intro n
  induction n with
  | zero =>
    intro l hl
    have hl0 : l = [] := List.length_eq_zero.1 (Nat.le_zero.1 hl)
    subst hl0
    refine ⟨by rw [replaceSeed_nil]; rfl, ?_⟩
    intro j hj1 hj6 hp
    rw [replaceSeed_nil] at hp
    have hnil : List.drop (7 - j) seedPat = [] := List.prefix_nil.1 hp
    have hlen : (List.drop (7 - j) seedPat).length = j := by
      simp [seedPat]
      omega
    rw [hnil] at hlen
    simp at hlen
    omega
  | succ n ih =>
    intro l hl
    match l with
    | [] =>
      refine ⟨by rw [replaceSeed_nil]; rfl, ?_⟩
      intro j hj1 hj6 hp
      rw [replaceSeed_nil] at hp
      have hnil : List.drop (7 - j) seedPat = [] := List.prefix_nil.1 hp
      have hlen : (List.drop (7 - j) seedPat).length = j := by
        simp [seedPat]
        omega
      rw [hnil] at hlen
      simp at hlen
      omega
    | c :: rest =>
      have hlrest : rest.length ≤ n := by
        simp at hl
        omega
      by_cases hm : List.take 7 (c :: rest) = seedPat
      · obtain ⟨ihc, ihp⟩ := ih (List.drop 6 rest) (by simp [List.length_drop]; omega)
        rw [replaceSeed_cons_pos repl c rest hm]
        constructor
        · exact containsSeed_append_false repl _ hdollar ihc
        · intro j hj1 hj6 hp
          have hagree := agreeChars_of_prefix_append _ _ _ hp
          interval_cases j <;> simp_all
      · obtain ⟨ihc, ihp⟩ := ih rest hlrest
        rw [replaceSeed_cons_neg repl c rest hm]
        constructor
        · rw [containsSeed_cons]
          refine Bool.or_eq_false_iff.2 ⟨beq_eq_false_iff_ne.2 ?_, ihc⟩
          intro htake
          have hh := take_seedPat_head c _ htake
          have hlen6 : (List.drop 1 seedPat).length = 6 := by decide
          have hpfx : (List.drop 1 seedPat) <+: replaceSeed repl rest := by
            rw [List.prefix_iff_eq_take, hlen6, hh.2]
          have hpfx' := ihp 6 (by omega) (by omega) hpfx
          apply hm
          rw [List.prefix_iff_eq_take, hlen6] at hpfx'
          show c :: List.take 6 rest = seedPat
          rw [hpfx'.symm, hh.1]
          rfl
        · intro j hj1 hj6 hp
          interval_cases j
          · -- j = 1 : suffix is ['\x7d']
            have e1 : List.drop (7 - 1) seedPat = ['}'] := rfl
            rw [e1] at hp ⊢
            rw [List.cons_prefix_cons] at hp ⊢
            exact ⟨hp.1, List.nil_prefix⟩
          · -- j = 2
            have e1 : List.drop (7 - 2) seedPat = 'd' :: List.drop 6 seedPat := rfl
            rw [e1] at hp ⊢
            rw [List.cons_prefix_cons] at hp ⊢
            refine ⟨hp.1, ihp 1 (by omega) (by omega) ?_⟩
            exact hp.2
          · -- j = 3
            have e1 : List.drop (7 - 3) seedPat = 'e' :: List.drop 5 seedPat := rfl
            rw [e1] at hp ⊢
            rw [List.cons_prefix_cons] at hp ⊢
            refine ⟨hp.1, ihp 2 (by omega) (by omega) ?_⟩
            exact hp.2
          · -- j = 4
            have e1 : List.drop (7 - 4) seedPat = 'e' :: List.drop 4 seedPat := rfl
            rw [e1] at hp ⊢
            rw [List.cons_prefix_cons] at hp ⊢
            refine ⟨hp.1, ihp 3 (by omega) (by omega) ?_⟩
            exact hp.2
          · -- j = 5
            have e1 : List.drop (7 - 5) seedPat = 's' :: List.drop 3 seedPat := rfl
            rw [e1] at hp ⊢
            rw [List.cons_prefix_cons] at hp ⊢
            refine ⟨hp.1, ihp 4 (by omega) (by omega) ?_⟩
            exact hp.2
          · -- j = 6
            have e1 : List.drop (7 - 6) seedPat = '{' :: List.drop 2 seedPat := rfl
            rw [e1] at hp ⊢
            rw [List.cons_prefix_cons] at hp ⊢
            refine ⟨hp.1, ihp 5 (by omega) (by omega) ?_⟩
            exact hp.2

lemma goodRepl_default : GoodRepl "default".data := by
  unfold GoodRepl
  refine ⟨by decide, by decide, by decide, by decide, by decide, by decide, by decide, by decide⟩

lemma isDigit_beq_false (x c : Char) (hx : x.isDigit = false) (hc : c.isDigit = true) :
    (x == c) = false := by
  refine beq_eq_false_iff_ne.2 ?_
  intro e
  rw [e, hc] at hx
  cases hx

lemma goodRepl_of_digits (repl : List Char) (h1 : repl ≠ [])
    (h2 : ∀ c ∈ repl, c.isDigit = true) : GoodRepl repl := by
  obtain ⟨c, cs, rfl⟩ := List.exists_cons_of_ne_nil h1
  have hc : c.isDigit = true := h2 c (List.mem_cons_self c cs)
  refine ⟨h1, ?_, ?_, ?_, ?_, ?_, ?_, ?_⟩
  · intro hmem
    exact absurd (h2 '$' hmem) (by decide)
  · exact agreeChars_cons_false '{' c _ cs (isDigit_beq_false _ _ (by decide) hc)
  · exact agreeChars_cons_false 's' c _ cs (isDigit_beq_false _ _ (by decide) hc)
  · exact agreeChars_cons_false 'e' c _ cs (isDigit_beq_false _ _ (by decide) hc)
  · exact agreeChars_cons_false 'e' c _ cs (isDigit_beq_false _ _ (by decide) hc)
  · exact agreeChars_cons_false 'd' c _ cs (isDigit_beq_false _ _ (by decide) hc)
  · exact agreeChars_cons_false '}' c _ cs (isDigit_beq_false _ _ (by decide) hc)

lemma firstDigitRun_digits : ∀ (l run : List Char), firstDigitRun l = some run →
    run ≠ [] ∧ ∀ c ∈ run, c.isDigit = true := by
  intro l
  induction l with
  | nil => intro run h; cases h
  | cons c rest ih =>
    intro run h
    by_cases hc : c.isDigit
    · rw [firstDigitRun, if_pos hc] at h
      obtain rfl : c :: rest.takeWhile Char.isDigit = run := Option.some_inj.1 h
      refine ⟨List.cons_ne_nil c _, ?_⟩
      intro x hx
      rcases List.mem_cons.1 hx with rfl | hx'
      · exact hc
      · exact List.mem_takeWhile_imp hx'
    · rw [firstDigitRun, if_neg hc] at h
      exact ih run h

lemma goodRepl_deriveSeed (email : Option String) : GoodRepl (deriveSeed email) := by
  match email with
  | none => exact goodRepl_default
  | some e =>
    rw [deriveSeed]
    by_cases h0 : e.data = []
    · rw [if_pos h0]
      exact goodRepl_default
    · rw [if_neg h0]
      cases hrun : firstDigitRun e.data with
      | none => exact goodRepl_default
      | some run =>
        obtain ⟨hne, hdig⟩ := firstDigitRun_digits e.data run hrun
        obtain ⟨r, rs, rfl⟩ := List.exists_cons_of_ne_nil hne
        refine goodRepl_of_digits _ ?_ ?_
        · show r :: List.take 5 rs ≠ []
          exact List.cons_ne_nil r _
        · intro x hx
          exact hdig x (List.take_subset 6 _ hx)

/-- C9: seed substitution is idempotent and deterministic: for every identity,
processing a text with no placeholder returns the text unchanged, and
processing a processed text (with the same identity) changes nothing. -/
theorem seed_substitution_idempotent :
    (∀ (email : Option String) (t : List Char), containsSeed t = false →
      processSeedPlaceholders email t = t) ∧
    (∀ (email : Option String) (t : List Char),
      processSeedPlaceholders email (processSeedPlaceholders email t) =
        processSeedPlaceholders email t) := by
  constructor
  · intro email t h
    unfold processSeedPlaceholders
    rw [if_pos (Or.inr h)]
  · intro email t
    by_cases h : t = [] ∨ containsSeed t = false
    · unfold processSeedPlaceholders
      rw [if_pos h, if_pos h]
    · have h2 : processSeedPlaceholders email t = replaceSeed (deriveSeed email) t := by
        unfold processSeedPlaceholders
        rw [if_neg h]
      rw [h2]
      have hc := (replaceSeed_main _ (goodRepl_deriveSeed email) t.length t (le_refl _)).1
      unfold processSeedPlaceholders
      rw [if_pos (Or.inr hc)]

/-- Witness for C9: idempotence evaluated at a concrete identity and text. -/
theorem seed_substitution_idempotent_witness :
    processSeedPlaceholders (some "a1b@x.com") "hello world".data = "hello world".data :=
  seed_substitution_idempotent.1 (some "a1b@x.com") "hello world".data (by decide)

lemma dropWhile_head_digit : ∀ (l : List Char) (c : Char) (r : List Char),
    l.dropWhile (fun c => !c.isDigit) = c :: r → c.isDigit = true := by
  intro l
  induction l with
  | nil => intro c r h; cases h
  | cons a l' ih =>
    intro c r h
    rw [List.dropWhile_cons] at h
    by_cases ha : a.isDigit
    · simp [ha] at h
      rw [← h.1]
      exact ha
    · simp [ha] at h
      exact ih c r h

lemma firstDigitRun_spec (l : List Char) :
    firstDigitRun l =
      (if l.dropWhile (fun c => !c.isDigit) = [] then none
       else some ((l.dropWhile (fun c => !c.isDigit)).takeWhile Char.isDigit)) := by
  induction l with
  | nil => rfl
  | cons c rest ih =>
    by_cases hc : c.isDigit
    · rw [firstDigitRun, if_pos hc]
      simp [List.dropWhile_cons, List.takeWhile_cons, hc]
    · rw [firstDigitRun, if_neg hc]
      simp only [List.dropWhile_cons, hc]
      simpa using ih

/-- C1 counterexample: the claim's worked example is wrong on the code.  The
first run of digits in "23f1002487@ds.study.iitm.ac.in" is "23" (the run stops
at the letter f), so the derived seed is "23", not "231002". -/
theorem seed_example_counterexample :
    deriveSeed (some "23f1002487@ds.study.iitm.ac.in") = "23".data ∧
    deriveSeed (some "23f1002487@ds.study.iitm.ac.in") ≠ "231002".data := by
  exact ⟨by decide, by decide⟩

/-- C1 (amended): for every non-empty identity, the derived seed is the first
6 digits of the first run of digits when such a run exists and the literal
string "default" otherwise; identity "23f1002487@ds.study.iitm.ac.in" yields
seed "23" and identity "abc@example.com" yields seed "default". -/
theorem seed_derivation_amended :
    (∀ e : String, e ≠ "" → deriveSeed (some e) = specSeedOfIdentity e) ∧
    deriveSeed (some "23f1002487@ds.study.iitm.ac.in") = "23".data ∧
    deriveSeed (some "abc@example.com") = "default".data := by
  refine ⟨?_, by decide, by decide⟩
  intro e he
  have hd : e.data ≠ [] := by
    intro h
    apply he
    cases e
    simp_all
  rw [deriveSeed, if_neg hd, firstDigitRun_spec]
  unfold specSeedOfIdentity
  by_cases h0 : e.data.dropWhile (fun c => !c.isDigit) = []
  · rw [if_pos h0]
    simp [h0]
  · rw [if_neg h0]
    obtain ⟨c, r, hcr⟩ := List.exists_cons_of_ne_nil h0
    have hc := dropWhile_head_digit e.data c r hcr
    rw [hcr]
    simp [List.takeWhile_cons, hc]

/-- Witness for amended C1: the general derivation law evaluated at a
concrete identity. -/
theorem seed_derivation_amended_witness :
    deriveSeed (some "abc@example.com") = specSeedOfIdentity "abc@example.com" :=
  seed_derivation_amended.1 "abc@example.com" (by decide)

/-! ## Manual JSON field unescaping (ai_service._extract_json_fields_manually) -/

/-- Replacement of the two-character escape `backslash p2` by the single
character `r`, modelling Python's `str.replace` (left-to-right,
non-overlapping) as used on the extracted field content. -/
def replacePair (p2 r : Char) : List Char → List Char
  | [] => []
  | [c] => [c]
  | a :: b :: rest =>
    if a = '\\' ∧ b = p2 then r :: replacePair p2 r rest
    else a :: replacePair p2 r (b :: rest)

/-- Unescape chain of `_extract_json_fields_manually` (ai_service.py lines
241-244): the four replacements applied in the source's fixed order, first
backslash-n, then backslash-t, then backslash-quote, then double backslash. -/
def manualUnescape (s : List Char) : List Char :=
  replacePair '\\' '\\'
    (replacePair '"' '"'
      (replacePair 't' '\t'
        (replacePair 'n' '\n' s)))

/-- Concatenated image of a per-character expansion over a list. -/
def escMap (f : Char → List Char) : List Char → List Char
  | [] => []
  | c :: rest => f c ++ escMap f rest

/-- JSON string escaping of one character as `json.dumps` performs it for the
characters modelled here: backslash, double quote, newline, tab and carriage
return become two-character escapes and any other character passes through.
(`json.dumps` additionally escapes other control and non-ASCII characters;
theorems below quantify only over the modelled alphabet.) -/
def jsonEscapeChar (c : Char) : List Char :=
  if c = '\\' then ['\\', '\\']
  else if c = '"' then ['\\', '"']
  else if c = '\n' then ['\\', 'n']
  else if c = '\t' then ['\\', 't']
  else if c = '\r' then ['\\', 'r']
  else [c]

/-- JSON string escaping of a whole string value. -/
def jsonEscape (v : List Char) : List Char := escMap jsonEscapeChar v

/-- Characters on which `jsonEscapeChar` agrees with `json.dumps`: printable
ASCII plus newline, tab and carriage return. -/
def modelledJsonChar (c : Char) : Bool :=
  (32 ≤ c.toNat && c.toNat < 128) || c = '\n' || c = '\t' || c = '\r'

/-- Stage value of a character after undoing the backslash-n escape. -/
def escStage1 (c : Char) : List Char :=
  if c = '\n' then ['\n'] else jsonEscapeChar c

/-- Stage value after additionally undoing the backslash-t escape. -/
def escStage2 (c : Char) : List Char :=
  if c = '\t' then ['\t'] else escStage1 c

/-- Stage value after additionally undoing the backslash-quote escape. -/
def escStage3 (c : Char) : List Char :=
  if c = '"' then ['"'] else escStage2 c

lemma replacePair_hit (p2 r : Char) (l : List Char) :
    replacePair p2 r ('\\' :: p2 :: l) = r :: replacePair p2 r l := by
  rw [replacePair, if_pos ⟨rfl, rfl⟩]

lemma replacePair_miss (p2 r b : Char) (l : List Char) (hb : b ≠ p2) :
    replacePair p2 r ('\\' :: b :: l) = '\\' :: replacePair p2 r (b :: l) := by
  rw [replacePair, if_neg]
  intro hh
  exact hb hh.2

lemma replacePair_cons_ne (p2 r c : Char) (l : List Char) (hc : c ≠ '\\') :
    replacePair p2 r (c :: l) = c :: replacePair p2 r l := by
  cases l with
  | nil => rfl
  | cons b rest =>
    rw [replacePair, if_neg]
    intro hh
    exact hc hh.1

lemma replacePair_id_of_no_bs (p2 r : Char) : ∀ l : List Char, '\\' ∉ l →
    replacePair p2 r l = l := by
  intro l
  induction l with
  | nil => intro _; rfl
  | cons c rest ih =>
    intro h
    have hc : c ≠ '\\' := fun e => h (e ▸ List.mem_cons_self c rest)
    rw [replacePair_cons_ne p2 r c rest hc, ih (fun e => h (List.mem_cons_of_mem c e))]

lemma replacePair_escMap (p2 r : Char) (g g' : Char → List Char) (v : List Char)
    (hv : ∀ c ∈ v, (g c = ['\\', p2] ∧ g' c = [r]) ∨
          (g c = g' c ∧ ((∃ b, b ≠ p2 ∧ b ≠ '\\' ∧ g c = ['\\', b]) ∨
                         (∃ d, d ≠ '\\' ∧ g c = [d])))) :
    replacePair p2 r (escMap g v) = escMap g' v := by
  induction v with
  | nil => rfl
  | cons c rest ih =>
    have hc := hv c (List.mem_cons_self c rest)
    have hrest : ∀ x ∈ rest, _ := fun x hx => hv x (List.mem_cons_of_mem c hx)
    simp only [escMap]
    rcases hc with ⟨hg, hg'⟩ | ⟨heq, ⟨b, hb1, hb2, hgb⟩ | ⟨d, hd, hgd⟩⟩
    · rw [hg, hg']
      show replacePair p2 r ('\\' :: p2 :: escMap g rest) = r :: escMap g' rest
      rw [replacePair_hit, ih hrest]
    · rw [← heq, hgb]
      show replacePair p2 r ('\\' :: b :: escMap g rest) = '\\' :: b :: escMap g' rest
      rw [replacePair_miss _ _ _ _ hb1, replacePair_cons_ne _ _ _ _ hb2, ih hrest]
    · rw [← heq, hgd]
      show replacePair p2 r (d :: escMap g rest) = d :: escMap g' rest
      rw [replacePair_cons_ne _ _ _ _ hd, ih hrest]

lemma unescape_stage1 (v : List Char) (hbs : '\\' ∉ v) (hcr : '\r' ∉ v) :
    replacePair 'n' '\n' (escMap jsonEscapeChar v) = escMap escStage1 v := by
  refine replacePair_escMap 'n' '\n' _ _ v ?_
  intro c hcmem
  have hc : c ≠ '\\' := fun e => hbs (e ▸ hcmem)
  have hr : c ≠ '\r' := fun e => hcr (e ▸ hcmem)
  by_cases h2 : c = '"'
  · subst h2
    exact Or.inr ⟨rfl, Or.inl ⟨'"', by decide, by decide, rfl⟩⟩
  by_cases h3 : c = '\n'
  · subst h3
    exact Or.inl ⟨rfl, rfl⟩
  by_cases h4 : c = '\t'
  · subst h4
    exact Or.inr ⟨rfl, Or.inl ⟨'t', by decide, by decide, rfl⟩⟩
  · have hjc : jsonEscapeChar c = [c] := by
      rw [jsonEscapeChar, if_neg hc, if_neg h2, if_neg h3, if_neg h4, if_neg hr]
    have hst : escStage1 c = jsonEscapeChar c := by
      rw [escStage1, if_neg h3]
    exact Or.inr ⟨hst.symm, Or.inr ⟨c, hc, hjc⟩⟩

lemma unescape_stage2 (v : List Char) (hbs : '\\' ∉ v) (hcr : '\r' ∉ v) :
    replacePair 't' '\t' (escMap escStage1 v) = escMap escStage2 v := by
  refine replacePair_escMap 't' '\t' _ _ v ?_
  intro c hcmem
  have hc : c ≠ '\\' := fun e => hbs (e ▸ hcmem)
  have hr : c ≠ '\r' := fun e => hcr (e ▸ hcmem)
  by_cases h2 : c = '"'
  · subst h2
    exact Or.inr ⟨rfl, Or.inl ⟨'"', by decide, by decide, rfl⟩⟩
  by_cases h3 : c = '\n'
  · subst h3
    exact Or.inr ⟨rfl, Or.inr ⟨'\n', by decide, rfl⟩⟩
  by_cases h4 : c = '\t'
  · subst h4
    exact Or.inl ⟨rfl, rfl⟩
  · have hjc : escStage1 c = [c] := by
      rw [escStage1, if_neg h3, jsonEscapeChar, if_neg hc, if_neg h2, if_neg h3, if_neg h4,
        if_neg hr]
    have hst : escStage2 c = escStage1 c := by
      rw [escStage2, if_neg h4]
    exact Or.inr ⟨hst.symm, Or.inr ⟨c, hc, hjc⟩⟩

lemma unescape_stage3 (v : List Char) (hbs : '\\' ∉ v) (hcr : '\r' ∉ v) :
    replacePair '"' '"' (escMap escStage2 v) = escMap escStage3 v := by
  refine replacePair_escMap '"' '"' _ _ v ?_
  intro c hcmem
  have hc : c ≠ '\\' := fun e => hbs (e ▸ hcmem)
  have hr : c ≠ '\r' := fun e => hcr (e ▸ hcmem)
  by_cases h2 : c = '"'
  · subst h2
    exact Or.inl ⟨rfl, rfl⟩
  by_cases h3 : c = '\n'
  · subst h3
    exact Or.inr ⟨rfl, Or.inr ⟨'\n', by decide, rfl⟩⟩
  by_cases h4 : c = '\t'
  · subst h4
    exact Or.inr ⟨rfl, Or.inr ⟨'\t', by decide, rfl⟩⟩
  · have hjc : escStage2 c = [c] := by
      rw [escStage2, if_neg h4, escStage1, if_neg h3, jsonEscapeChar, if_neg hc, if_neg h2,
        if_neg h3, if_neg h4, if_neg hr]
    have hst : escStage3 c = escStage2 c := by
      rw [escStage3, if_neg h2]
    exact Or.inr ⟨hst.symm, Or.inr ⟨c, hc, hjc⟩⟩

lemma escStage3_single (c : Char) (h1 : c ≠ '\\') (h2 : c ≠ '\r') : escStage3 c = [c] := by
  unfold escStage3 escStage2 escStage1 jsonEscapeChar
  split_ifs <;> simp_all

lemma escMap_escStage3_id (v : List Char) (hbs : '\\' ∉ v) (hcr : '\r' ∉ v) :
    escMap escStage3 v = v := by
  induction v with
  | nil => rfl
  | cons c rest ih =>
    have hc : c ≠ '\\' := fun e => hbs (e ▸ List.mem_cons_self c rest)
    have hr : c ≠ '\r' := fun e => hcr (e ▸ List.mem_cons_self c rest)
    simp only [escMap]
    rw [escStage3_single c hc hr,
      ih (fun e => hbs (List.mem_cons_of_mem c e)) (fun e => hcr (List.mem_cons_of_mem c e))]
    rfl

/-- C10 counterexample: the fixed replacement order is not a left inverse of
JSON escaping.  The two-character value backslash-n serializes to
backslash-backslash-n, but the unescape chain first rewrites the trailing
backslash-n to a newline, yielding backslash-newline instead of the original
value. -/
theorem manual_unescape_counterexample :
    jsonEscape ['\\', 'n'] = ['\\', '\\', 'n'] ∧
    manualUnescape (jsonEscape ['\\', 'n']) = ['\\', '\n'] ∧
    manualUnescape (jsonEscape ['\\', 'n']) ≠ ['\\', 'n'] :=
  ⟨by decide, by decide, by decide⟩

/-- C10 (amended): for every string value over the modelled JSON alphabet
(printable ASCII plus newline, tab, carriage return) that contains no
backslash and no carriage return, the manual extraction's unescape chain
recovers the value exactly from its JSON string escaping. -/
theorem manual_unescape_left_inverse_amended :
    ∀ v : List Char, (∀ c ∈ v, modelledJsonChar c = true) → '\\' ∉ v → '\r' ∉ v →
      manualUnescape (jsonEscape v) = v := by
  intro v _ hbs hcr
  unfold manualUnescape jsonEscape
  rw [unescape_stage1 v hbs hcr, unescape_stage2 v hbs hcr, unescape_stage3 v hbs hcr,
    escMap_escStage3_id v hbs hcr, replacePair_id_of_no_bs _ _ v hbs]

/-- Witness for amended C10: round trip evaluated on a concrete value
containing a newline and a quote. -/
theorem manual_unescape_amended_witness :
    manualUnescape (jsonEscape ['a', '\n', '"', 'b']) = ['a', '\n', '"', 'b'] :=
  manual_unescape_left_inverse_amended ['a', '\n', '"', 'b'] (by decide) (by decide) (by decide)

/-! ## Artifact assembly (ai_service._generate_with_ai, lines 497-502) -/

/-- Parsed JSON object of the backend response, modelled by its key lookup
function (a Python dict). -/
abbrev JsonObj := String → Option String

/-- Exactly four named text artifacts returned by one generation round. -/
structure ArtifactSet where
  index_html : String
  style_css : String
  script_js : String
  readme_md : String
deriving DecidableEq

/-- Assembly step of `_generate_with_ai` (ai_service.py lines 497-502): each
of the four fields is read from the parsed object with
`result_data.get(key, '')`, defaulting to the empty string. -/
def assembleArtifacts (d : JsonObj) : ArtifactSet :=
  { index_html := (d "index_html").getD ""
  , style_css := (d "style_css").getD ""
  , script_js := (d "script_js").getD ""
  , readme_md := (d "readme_md").getD "" }

/-- Tail of `_generate_with_ai` after the recovery ladder: when the ladder
produced a parsed object the assembled artifacts are returned as success,
and only a ladder failure raises. -/
def generateResult (parsed : Except String JsonObj) : Except String ArtifactSet :=
  match parsed with
  | .error e => .error ("AI returned invalid JSON: " ++ e)
  | .ok d => .ok (assembleArtifacts d)

/-- C2 counterexample: a parsed response carrying only a markup field is
returned as a success whose style, behavior and documentation artifacts are
all empty; the round does not fail and the empty artifacts are returned
silently. -/
theorem artifact_empty_success_counterexample :
    generateResult (Except.ok (fun k => if k = "index_html" then some "<h1>x</h1>" else none)) =
      Except.ok { index_html := "<h1>x</h1>", style_css := "", script_js := "", readme_md := "" } := by
  rfl

/-- C2 (amended): the gateway performs no non-emptiness validation of the
four artifacts: a generation round succeeds exactly when the recovery ladder
parses the response, the four fields being filled from the parsed object
with missing fields defaulted to the empty string, so an artifact set with
an empty artifact can be returned as a success. -/
theorem generation_success_iff_parse :
    ∀ parsed : Except String JsonObj,
      (generateResult parsed).isOk = parsed.isOk ∧
      (∀ d : JsonObj, parsed = Except.ok d → generateResult parsed = Except.ok (assembleArtifacts d)) := by
  intro parsed
  constructor
  · cases parsed <;> rfl
  · intro d h
    rw [h]
    rfl

/-- Witness for amended C2: a parse success with an empty style field is a
round success. -/
theorem generation_success_iff_parse_witness :
    generateResult (Except.ok (fun _ => some "")) =
      Except.ok (assembleArtifacts (fun _ => some "")) :=
  (generation_success_iff_parse (Except.ok (fun _ => some ""))).2 (fun _ => some "") rfl

/-! ## Repository creation (github_service.create_repository) -/

/-- Classification of one POST /user/repos response: status 201 yields the
created repository URL; a 422 whose error list blames the name field with an
"already exists" message is a duplicate-name signal; anything else is a
terminal error with the response message. -/
inductive RepoCreateResp where
  | created (htmlUrl : String)
  | duplicate
  | otherError (msg : String)

/-- Suffixed repository name used on retry attempts: the original name with
`-{epochMillisTruncated}-{randomFourDigits}` appended. -/
def repoSuffixName (orig : String) (tsVal rndVal : Nat) : String :=
  orig ++ "-" ++ toString tsVal ++ "-" ++ toString rndVal

/-- Name tried on a given attempt (github_service.py lines 59-66): the
original name on attempt 1, the suffixed name on later attempts. -/
def createRepoName (orig : String) (ts rnd : Nat → Nat) (attempt : Nat) : String :=
  if attempt = 1 then orig else repoSuffixName orig (ts attempt) (rnd attempt)

/-- Trace of a `create_repository` run: its outcome, the names attempted in
order, and the sleeps (in milliseconds) performed between attempts. -/
structure CreateTrace where
  result : Except String String
  names : List String
  delays : List Nat

/-- Terminal message raised after the retry budget is exhausted
(github_service.py line 114). -/
def repoExhaustMsg : String :=
  "GitHub repository creation failed: Unable to generate unique repository name after 5 attempts"

/-- Loop body of `create_repository` (github_service.py lines 59-110): `ts`
and `rnd` are oracles for the timestamp and random suffix drawn on each
attempt, `resp` gives the remote's classification of each attempt's POST,
and the fuel counts the attempts remaining out of 5. -/
def createRepoGo (orig : String) (resp : Nat → RepoCreateResp) (ts rnd : Nat → Nat) :
    Nat → Nat → CreateTrace
  | _, 0 => ⟨.error repoExhaustMsg, [], []⟩
  | attempt, fuel + 1 =>
    let name := createRepoName orig ts rnd attempt
    match resp attempt with
    | .created url => ⟨.ok url, [name], []⟩
    | .duplicate =>
      let t := createRepoGo orig resp ts rnd (attempt + 1) fuel
      ⟨t.result, name :: t.names, 500 :: t.delays⟩
    | .otherError msg =>
      ⟨.error ("GitHub repository creation failed: " ++ msg), [name], []⟩

/-- Embedding of `create_repository`: at most 5 attempts starting from
attempt 1. -/
def createRepositoryModel (orig : String) (resp : Nat → RepoCreateResp)
    (ts rnd : Nat → Nat) : CreateTrace :=
  createRepoGo orig resp ts rnd 1 5

lemma createRepoGo_names_len (orig : String) (resp : Nat → RepoCreateResp)
    (ts rnd : Nat → Nat) : ∀ fuel attempt,
    (createRepoGo orig resp ts rnd attempt fuel).names.length ≤ fuel := by
  intro fuel
  induction fuel with
  | zero => intro attempt; simp [createRepoGo]
  | succ n ih =>
    intro attempt
    cases h : resp attempt <;> simp [createRepoGo, h]
    exact ih (attempt + 1)

lemma createRepoGo_names_get (orig : String) (resp : Nat → RepoCreateResp)
    (ts rnd : Nat → Nat) : ∀ fuel attempt i,
    i < (createRepoGo orig resp ts rnd attempt fuel).names.length →
    (createRepoGo orig resp ts rnd attempt fuel).names.get? i =
      some (createRepoName orig ts rnd (attempt + i)) := by
  intro fuel
  induction fuel with
  | zero => intro attempt i h; simp [createRepoGo] at h
  | succ n ih =>
    intro attempt i h
    cases hr : resp attempt with
    | created url =>
      simp [createRepoGo, hr] at h
      have hi : i = 0 := by omega
      subst hi
      simp [createRepoGo, hr]
    | duplicate =>
      match i with
      | 0 => simp [createRepoGo, hr]
      | i + 1 =>
        have h' : i < (createRepoGo orig resp ts rnd (attempt + 1) n).names.length := by
          simp [createRepoGo, hr] at h
          omega
        have hrec := ih (attempt + 1) i h'
        have hnames : (createRepoGo orig resp ts rnd attempt (n + 1)).names =
            createRepoName orig ts rnd attempt ::
              (createRepoGo orig resp ts rnd (attempt + 1) n).names := by
          simp [createRepoGo, hr]
        rw [hnames]
        show (createRepoGo orig resp ts rnd (attempt + 1) n).names.get? i = _
        rw [hrec]
        congr 2
        omega
    | otherError msg =>
      simp [createRepoGo, hr] at h
      have hi : i = 0 := by omega
      subst hi
      simp [createRepoGo, hr]

lemma createRepoGo_all_dup (orig : String) (resp : Nat → RepoCreateResp)
    (ts rnd : Nat → Nat) : ∀ fuel attempt,
    (∀ a, attempt ≤ a → a < attempt + fuel → resp a = .duplicate) →
    (createRepoGo orig resp ts rnd attempt fuel).result = .error repoExhaustMsg := by
  intro fuel
  induction fuel with
  | zero => intro attempt _; rfl
  | succ n ih =>
    intro attempt hdup
    have h1 : resp attempt = .duplicate := hdup attempt (le_refl _) (by omega)
    simp [createRepoGo, h1]
    exact ih (attempt + 1) (fun a ha hb => hdup a (by omega) (by omega))

lemma createRepoGo_delays (orig : String) (resp : Nat → RepoCreateResp)
    (ts rnd : Nat → Nat) : ∀ fuel attempt,
    ∀ d ∈ (createRepoGo orig resp ts rnd attempt fuel).delays, d = 500 := by
  intro fuel
  induction fuel with
  | zero => intro attempt d hd; simp [createRepoGo] at hd
  | succ n ih =>
    intro attempt d hd
    cases hr : resp attempt <;> simp [createRepoGo, hr] at hd
    rcases hd with rfl | hd
    · rfl
    · exact ih (attempt + 1) d hd

/-- C4: repository creation makes at most 5 attempts with a fixed 500 ms
delay between attempts, tries the original name first and a
`-{epochMillisTruncated}-{randomFourDigits}` suffixed name on every retry,
raises the terminal creation-failure error after 5 consecutive duplicates,
and raises immediately without retry on any non-duplicate error. -/
theorem create_repository_retry_policy :
    ∀ (orig : String) (resp : Nat → RepoCreateResp) (ts rnd : Nat → Nat),
      (createRepositoryModel orig resp ts rnd).names.length ≤ 5 ∧
      (∀ d ∈ (createRepositoryModel orig resp ts rnd).delays, d = 500) ∧
      (∀ i, i < (createRepositoryModel orig resp ts rnd).names.length →
        (createRepositoryModel orig resp ts rnd).names.get? i =
          some (if i = 0 then orig else repoSuffixName orig (ts (i + 1)) (rnd (i + 1)))) ∧
      ((∀ a, 1 ≤ a → a ≤ 5 → resp a = .duplicate) →
        (createRepositoryModel orig resp ts rnd).result = .error repoExhaustMsg) ∧
      (∀ m, resp 1 = .otherError m →
        (createRepositoryModel orig resp ts rnd).result =
            .error ("GitHub repository creation failed: " ++ m) ∧
          (createRepositoryModel orig resp ts rnd).names = [orig]) := by
  intro orig resp ts rnd
  refine ⟨createRepoGo_names_len orig resp ts rnd 5 1,
          createRepoGo_delays orig resp ts rnd 5 1, ?_, ?_, ?_⟩
  · intro i h
    rw [createRepositoryModel] at h ⊢
    rw [createRepoGo_names_get orig resp ts rnd 5 1 i h, Nat.add_comm 1 i]
    by_cases hi : i = 0
    · subst hi
      simp [createRepoName]
    · rw [if_neg hi]
      rw [createRepoName, if_neg (by omega)]
  · intro hdup
    exact createRepoGo_all_dup orig resp ts rnd 5 1 (fun a ha hb => hdup a ha (by omega))
  · intro m hm
    unfold createRepositoryModel
    constructor
    · simp [createRepoGo, hm]
    · simp [createRepoGo, hm, createRepoName]

/-- Witness for C4: on a concrete oracle answering duplicate on every
attempt, the model returns the terminal exhaustion error after 5 names. -/
theorem create_repository_retry_policy_witness :
    (createRepositoryModel "app" (fun _ => .duplicate) (fun _ => 12345) (fun _ => 6789)).result =
        .error repoExhaustMsg ∧
      (createRepositoryModel "app" (fun _ => .duplicate) (fun _ => 12345)
          (fun _ => 6789)).names.length ≤ 5 :=
  ⟨((create_repository_retry_policy "app" (fun _ => .duplicate) (fun _ => 12345)
      (fun _ => 6789)).2.2.2.1) (fun _ _ _ => rfl),
   (create_repository_retry_policy "app" (fun _ => .duplicate) (fun _ => 12345)
      (fun _ => 6789)).1⟩

/-! ## File upload (github_service.upload_files / _upload_single_file) -/

/-- Named text file uploaded to the repository (Models.CodeFile). -/
structure CodeFile where
  name : String
  content : String

/-- Remote behaviour for one file name: `probe` is the revision token
returned when the existence GET answers 200 (`none` otherwise), `put` is the
outcome of the PUT (the new commit SHA, or an upload failure). -/
structure UploadResp where
  probe : Option String
  put : Except Unit String

/-- Observable remote interaction of the uploader: the existence probe and
the write, the latter carrying the revision token that was attached. -/
inductive UploadEvent where
  | probe (name : String)
  | put (name : String) (sha : Option String)
deriving DecidableEq

/-- Embedding of `_upload_single_file` (github_service.py lines 132-161):
probe for the file, attach the revision token exactly when the probe
answered 200, write, and raise an error naming the file when the write is
rejected. -/
def uploadSingleFile (env : String → UploadResp) (file : CodeFile) :
    Except String String × List UploadEvent :=
  let r := env file.name
  let evs := [UploadEvent.probe file.name, UploadEvent.put file.name r.probe]
  match r.put with
  | .ok commitSha => (.ok commitSha, evs)
  | .error _ => (.error ("Failed to upload " ++ file.name), evs)

/-- Loop of `upload_files` (github_service.py lines 116-130): files are
processed one at a time in order, the running commit SHA being overwritten
by each successful upload and the first failure aborting the loop. -/
def uploadFilesGo (env : String → UploadResp) :
    List CodeFile → String → Except String String × List UploadEvent
  | [], commitSha => (.ok commitSha, [])
  | f :: rest, _ =>
    match uploadSingleFile env f with
    | (.ok sha, evs) =>
      let t := uploadFilesGo env rest sha
      (t.1, evs ++ t.2)
    | (.error e, evs) => (.error e, evs)

/-- Embedding of `upload_files`: the loop starts from the empty SHA and an
empty final SHA (no file uploaded) raises. -/
def uploadFilesModel (env : String → UploadResp) (files : List CodeFile) :
    Except String String × List UploadEvent :=
  let t := uploadFilesGo env files ""
  match t.1 with
  | .ok sha => if sha = "" then (.error "No files were uploaded successfully", t.2) else (.ok sha, t.2)
  | .error e => (.error e, t.2)

/-- Probe-then-write event pair of one file. -/
def probePutEvents (env : String → UploadResp) (f : CodeFile) : List UploadEvent :=
  [UploadEvent.probe f.name, UploadEvent.put f.name (env f.name).probe]

/-- Commit SHA answered by the remote for one file's successful write. -/
def putSha (env : String → UploadResp) (f : CodeFile) : String :=
  match (env f.name).put with
  | .ok s => s
  | .error _ => ""

/-- Running commit SHA after uploading every file in order. -/
def lastSha (env : String → UploadResp) : List CodeFile → String → String
  | [], init => init
  | f :: rest, _ => lastSha env rest (putSha env f)

lemma lastSha_getLast (env : String → UploadResp) :
    ∀ (files : List CodeFile) (f : CodeFile) (init : String),
      files.getLast? = some f → lastSha env files init = putSha env f := by
  intro files
  induction files with
  | nil => intro f init h; cases h
  | cons g rest ih =>
    intro f init h
    by_cases hr : rest = []
    · subst hr
      simp at h
      subst h
      rfl
    · obtain ⟨g2, rest2, hre⟩ := List.exists_cons_of_ne_nil hr
      have h' : rest.getLast? = some f := by
        rw [hre] at h ⊢
        rw [List.getLast?_cons_cons] at h
        exact h
      exact ih f (putSha env g) h'

lemma uploadSingleFile_ok (env : String → UploadResp) (f : CodeFile) (s : String)
    (hs : (env f.name).put = .ok s) :
    uploadSingleFile env f = (.ok s, probePutEvents env f) := by
  simp [uploadSingleFile, hs, probePutEvents]

lemma uploadSingleFile_err (env : String → UploadResp) (f : CodeFile)
    (hf : (env f.name).put = .error ()) :
    uploadSingleFile env f = (.error ("Failed to upload " ++ f.name), probePutEvents env f) := by
  simp [uploadSingleFile, hf, probePutEvents]

lemma uploadFilesGo_all_ok (env : String → UploadResp) :
    ∀ (files : List CodeFile) (init : String),
      (∀ f ∈ files, ∃ s, (env f.name).put = .ok s) →
      (uploadFilesGo env files init).1 = .ok (lastSha env files init) ∧
      (uploadFilesGo env files init).2 = (files.map (probePutEvents env)).flatten := by
  intro files
  induction files with
  | nil => intro init _; exact ⟨rfl, rfl⟩
  | cons f rest ih =>
    intro init hall
    obtain ⟨s, hs⟩ := hall f (List.mem_cons_self f rest)
    have hrest : ∀ g ∈ rest, ∃ s, (env g.name).put = .ok s :=
      fun g hg => hall g (List.mem_cons_of_mem f hg)
    obtain ⟨ih1, ih2⟩ := ih s hrest
    have hstep : uploadFilesGo env (f :: rest) init =
        ((uploadFilesGo env rest s).1,
          probePutEvents env f ++ (uploadFilesGo env rest s).2) := by
      rw [uploadFilesGo, uploadSingleFile_ok env f s hs]
    rw [hstep]
    refine ⟨?_, ?_⟩
    · rw [ih1]
      have : lastSha env (f :: rest) init = lastSha env rest (putSha env f) := rfl
      rw [this]
      have hps : putSha env f = s := by
        rw [putSha, hs]
      rw [hps]
    · rw [ih2]
      simp

lemma uploadFilesGo_err (env : String → UploadResp) (f : CodeFile)
    (hf : (env f.name).put = .error ()) :
    ∀ (pre : List CodeFile) (post : List CodeFile) (init : String),
      (∀ g ∈ pre, ∃ s, (env g.name).put = .ok s) →
      (uploadFilesGo env (pre ++ f :: post) init).1 =
          .error ("Failed to upload " ++ f.name) ∧
      (uploadFilesGo env (pre ++ f :: post) init).2 =
          (pre.map (probePutEvents env)).flatten ++ probePutEvents env f := by
  intro pre
  induction pre with
  | nil =>
    intro post init _
    have hstep : uploadFilesGo env (f :: post) init =
        (.error ("Failed to upload " ++ f.name), probePutEvents env f) := by
      rw [uploadFilesGo, uploadSingleFile_err env f hf]
    rw [List.nil_append, hstep]
    exact ⟨rfl, by simp⟩
  | cons g pre' ih =>
    intro post init hall
    obtain ⟨s, hs⟩ := hall g (List.mem_cons_self g pre')
    have hpre' : ∀ x ∈ pre', ∃ s, (env x.name).put = .ok s :=
      fun x hx => hall x (List.mem_cons_of_mem g hx)
    obtain ⟨ih1, ih2⟩ := ih post s hpre'
    have hstep : uploadFilesGo env ((g :: pre') ++ f :: post) init =
        ((uploadFilesGo env (pre' ++ f :: post) s).1,
          probePutEvents env g ++ (uploadFilesGo env (pre' ++ f :: post) s).2) := by
      rw [List.cons_append, uploadFilesGo, uploadSingleFile_ok env g s hs]
    rw [hstep]
    refine ⟨ih1, ?_⟩
    rw [ih2]
    simp

lemma uploadFilesModel_events (env : String → UploadResp) (files : List CodeFile) :
    (uploadFilesModel env files).2 = (uploadFilesGo env files "").2 := by
  unfold uploadFilesModel
  cases h : (uploadFilesGo env files "").1 with
  | ok sha =>
    simp [h]
    by_cases hsha : sha = "" <;> simp [hsha]
  | error e => simp [h]

/-- C7: file upload processes the ordered list one at a time, probing each
name before writing it and attaching the revision token exactly when the
probe succeeded; on the first failing write it fails with an error naming
that file, keeps the writes already performed and attempts nothing further;
and on success it returns the commit id answered for the last file. -/
theorem upload_files_order_and_failure :
    ∀ (env : String → UploadResp) (files : List CodeFile),
      ((∀ f ∈ files, ∃ s, (env f.name).put = .ok s) →
        (uploadFilesModel env files).2 = (files.map (probePutEvents env)).flatten) ∧
      (∀ f s, files.getLast? = some f → (env f.name).put = .ok s → s ≠ "" →
        (∀ g ∈ files, ∃ s', (env g.name).put = .ok s') →
        (uploadFilesModel env files).1 = .ok s) ∧
      (∀ pre f post, files = pre ++ f :: post →
        (∀ g ∈ pre, ∃ s, (env g.name).put = .ok s) →
        (env f.name).put = .error () →
        (uploadFilesModel env files).1 = .error ("Failed to upload " ++ f.name) ∧
        (uploadFilesModel env files).2 =
          (pre.map (probePutEvents env)).flatten ++ probePutEvents env f) := by
  intro env files
  refine ⟨?_, ?_, ?_⟩
  · intro hall
    rw [uploadFilesModel_events]
    exact (uploadFilesGo_all_ok env files "" hall).2
  · intro f s hlast hput hne hall
    have h1 := (uploadFilesGo_all_ok env files "" hall).1
    have h2 : lastSha env files "" = putSha env f := lastSha_getLast env files f "" hlast
    have h3 : putSha env f = s := by rw [putSha, hput]
    rw [h2, h3] at h1
    unfold uploadFilesModel
    simp [h1, hne]
  · intro pre f post hsplit hpre hput
    subst hsplit
    obtain ⟨h1, h2⟩ := uploadFilesGo_err env f hput pre post "" hpre
    constructor
    · unfold uploadFilesModel
      simp [h1]
    · rw [uploadFilesModel_events]
      exact h2

/-- Witness for C7: a two-file upload where the second write fails keeps the
first write and names the second file in the error. -/
theorem upload_files_order_and_failure_witness :
    (uploadFilesModel
        (fun n => if n = "a.txt" then ⟨none, .ok "sha1"⟩ else ⟨some "old", .error ()⟩)
        [⟨"a.txt", "A"⟩, ⟨"b.txt", "B"⟩]).1 = .error ("Failed to upload " ++ "b.txt") ∧
    (uploadFilesModel
        (fun n => if n = "a.txt" then ⟨none, .ok "sha1"⟩ else ⟨some "old", .error ()⟩)
        [⟨"a.txt", "A"⟩, ⟨"b.txt", "B"⟩]).2 =
      ([(⟨"a.txt", "A"⟩ : CodeFile)].map
          (probePutEvents (fun n => if n = "a.txt" then ⟨none, .ok "sha1"⟩
            else ⟨some "old", .error ()⟩))).flatten ++
        probePutEvents (fun n => if n = "a.txt" then ⟨none, .ok "sha1"⟩
            else ⟨some "old", .error ()⟩) ⟨"b.txt", "B"⟩ :=
  (upload_files_order_and_failure
      (fun n => if n = "a.txt" then ⟨none, .ok "sha1"⟩ else ⟨some "old", .error ()⟩)
      [⟨"a.txt", "A"⟩, ⟨"b.txt", "B"⟩]).2.2
    [⟨"a.txt", "A"⟩] ⟨"b.txt", "B"⟩ [] rfl
    (by intro g hg
        simp at hg
        subst hg
        exact ⟨"sha1", by simp⟩)
    (by simp)

/-! ## Pages activation (github_service.enable_pages) -/

/-- Trace of one `enable_pages` run: the outcome and whether the current
Pages configuration was re-queried after a failed activation call. -/
structure PagesTrace where
  result : Except String String
  requeried : Bool

/-- Embedding of `enable_pages` (github_service.py lines 163-194):
`postStatus`/`postUrl` describe the activation POST, `getStatus`/`getUrl`
the re-query GET performed only when the POST status is neither 200 nor
201. -/
def enablePagesModel (postStatus : Nat) (postUrl : String)
    (getStatus : Nat) (getUrl : String) : PagesTrace :=
  if postStatus = 200 ∨ postStatus = 201 then
    ⟨.ok postUrl, false⟩
  else if getStatus = 200 then
    ⟨.ok getUrl, true⟩
  else
    ⟨.error "GitHub Pages enablement failed", true⟩

/-- C8: a failed activation call triggers a re-query of the current Pages
configuration and a successful re-query is returned as the successful
outcome; the Pages-activation error is raised only when the activation call
and the re-query both fail, and a successful activation returns its own URL
without re-querying. -/
theorem enable_pages_fallback :
    ∀ (postStatus : Nat) (postUrl : String) (getStatus : Nat) (getUrl : String),
      (¬(postStatus = 200 ∨ postStatus = 201) → getStatus = 200 →
        enablePagesModel postStatus postUrl getStatus getUrl = ⟨.ok getUrl, true⟩) ∧
      (¬(postStatus = 200 ∨ postStatus = 201) → getStatus ≠ 200 →
        enablePagesModel postStatus postUrl getStatus getUrl =
          ⟨.error "GitHub Pages enablement failed", true⟩) ∧
      ((postStatus = 200 ∨ postStatus = 201) →
        enablePagesModel postStatus postUrl getStatus getUrl = ⟨.ok postUrl, false⟩) ∧
      ((enablePagesModel postStatus postUrl getStatus getUrl).result.isOk = false →
        ¬(postStatus = 200 ∨ postStatus = 201) ∧ getStatus ≠ 200) := by
  intro postStatus postUrl getStatus getUrl
  refine ⟨?_, ?_, ?_, ?_⟩
  · intro hp hg
    rw [enablePagesModel, if_neg hp, if_pos hg]
  · intro hp hg
    rw [enablePagesModel, if_neg hp, if_neg hg]
  · intro hp
    rw [enablePagesModel, if_pos hp]
  · intro hfail
    by_cases hp : postStatus = 200 ∨ postStatus = 201
    · rw [enablePagesModel, if_pos hp] at hfail
      cases hfail
    · by_cases hg : getStatus = 200
      · rw [enablePagesModel, if_neg hp, if_pos hg] at hfail
        cases hfail
      · exact ⟨hp, hg⟩

/-- Witness for C8: a 409 activation answer followed by a 200 re-query is a
success carrying the queried URL. -/
theorem enable_pages_fallback_witness :
    enablePagesModel 409 "post.example" 200 "https://u.github.io/r/" =
      ⟨.ok "https://u.github.io/r/", true⟩ :=
  (enable_pages_fallback 409 "post.example" 200 "https://u.github.io/r/").1
    (by omega) rfl

/-! ## Evaluation notifier (task_service._post_with_retry /
_submit_complete_results) -/

/-- Outcome of one POST attempt to the evaluation URL: an HTTP response with
a status code, a connection-class failure, a timeout-class failure, or any
other request failure. -/
inductive HttpAttempt where
  | resp (status : Nat)
  | connFail (msg : String)
  | timeoutFail (msg : String)
  | otherFail (msg : String)

/-- Trace of one `_post_with_retry` run: the returned response status (or
the raised error), the backoff sleeps in seconds, and the number of attempts
made. -/
structure NotifyTrace where
  result : Except String (Option Nat)
  delays : List Nat
  attempts : Nat

/-- Loop of `_post_with_retry` (task_service.py lines 58-75) at a given
attempt index with the given attempts remaining: connection and timeout
errors sleep `2 ^ attempt` seconds and retry unless the attempt is the last,
any other request error raises immediately, and a response returns
immediately whatever its status. -/
def postWithRetryGo (outcomes : Nat → HttpAttempt) (attempt : Nat) :
    Nat → NotifyTrace
  | 0 => ⟨.ok none, [], 0⟩
  | fuel + 1 =>
    match outcomes attempt with
    | .resp s => ⟨.ok (some s), [], 1⟩
    | .connFail m =>
      if fuel = 0 then ⟨.error m, [], 1⟩
      else
        let t := postWithRetryGo outcomes (attempt + 1) fuel
        ⟨t.result, 2 ^ attempt :: t.delays, t.attempts + 1⟩
    | .timeoutFail m =>
      if fuel = 0 then ⟨.error m, [], 1⟩
      else
        let t := postWithRetryGo outcomes (attempt + 1) fuel
        ⟨t.result, 2 ^ attempt :: t.delays, t.attempts + 1⟩
    | .otherFail m => ⟨.error m, [], 1⟩

/-- Embedding of `_post_with_retry` with its fixed budget of 3 attempts. -/
def postWithRetryModel (outcomes : Nat → HttpAttempt) : NotifyTrace :=
  postWithRetryGo outcomes 0 3

/-- Log classification of one `_submit_complete_results` /
`_submit_error_results` run (task_service.py lines 281-294 and 309-322). -/
inductive SubmitLog where
  | success
  | httpFailure (status : Nat)
  | networkFailure (msg : String)
  | silent
deriving DecidableEq

/-- Embedding of the submit wrappers around `_post_with_retry`: a 200
response logs success, any other response logs an HTTP failure, every raised
request error is caught and logged as a network failure, and the function
itself never raises. -/
def submitResultsModel (outcomes : Nat → HttpAttempt) : SubmitLog :=
  match (postWithRetryModel outcomes).result with
  | .ok (some s) => if s = 200 then .success else .httpFailure s
  | .ok none => .silent
  | .error m => .networkFailure m

lemma postWithRetryGo_attempts_le (outcomes : Nat → HttpAttempt) :
    ∀ fuel attempt, (postWithRetryGo outcomes attempt fuel).attempts ≤ fuel := by
  intro fuel
  induction fuel with
  | zero => intro attempt; simp [postWithRetryGo]
  | succ n ih =>
    intro attempt
    cases h : outcomes attempt <;> simp [postWithRetryGo, h]
    · by_cases hn : n = 0
      · simp [hn]
      · simp [hn]
        exact ih (attempt + 1)
    · by_cases hn : n = 0
      · simp [hn]
      · simp [hn]
        exact ih (attempt + 1)

lemma postWithRetryGo_delays (outcomes : Nat → HttpAttempt) :
    ∀ fuel attempt i,
      (postWithRetryGo outcomes attempt fuel).delays.get? i =
        if i < (postWithRetryGo outcomes attempt fuel).delays.length then
          some (2 ^ (attempt + i)) else none := by
  intro fuel
  induction fuel with
  | zero =>
    intro attempt i
    simp [postWithRetryGo]
  | succ n ih =>
    intro attempt i
    cases h : outcomes attempt with
    | resp s => simp [postWithRetryGo, h]
    | connFail m =>
      by_cases hn : n = 0
      · simp [postWithRetryGo, h, hn]
      · have hd : (postWithRetryGo outcomes attempt (n + 1)).delays =
            2 ^ attempt :: (postWithRetryGo outcomes (attempt + 1) n).delays := by
          simp [postWithRetryGo, h, hn]
        rw [hd]
        match i with
        | 0 => simp
        | i + 1 =>
          have := ih (attempt + 1) i
          simp only [List.get?_cons_succ, List.length_cons]
          rw [this]
          by_cases hi : i < (postWithRetryGo outcomes (attempt + 1) n).delays.length
          · rw [if_pos hi, if_pos (by omega)]
            congr 2
            omega
          · rw [if_neg hi, if_neg (by omega)]
    | timeoutFail m =>
      by_cases hn : n = 0
      · simp [postWithRetryGo, h, hn]
      · have hd : (postWithRetryGo outcomes attempt (n + 1)).delays =
            2 ^ attempt :: (postWithRetryGo outcomes (attempt + 1) n).delays := by
          simp [postWithRetryGo, h, hn]
        rw [hd]
        match i with
        | 0 => simp
        | i + 1 =>
          have := ih (attempt + 1) i
          simp only [List.get?_cons_succ, List.length_cons]
          rw [this]
          by_cases hi : i < (postWithRetryGo outcomes (attempt + 1) n).delays.length
          · rw [if_pos hi, if_pos (by omega)]
            congr 2
            omega
          · rw [if_neg hi, if_neg (by omega)]
    | otherFail m => simp [postWithRetryGo, h]

/-- C5: the notifier makes at most 3 attempts, each backoff sleep is
`2 ^ attempt` seconds, three consecutive connection errors make exactly 3
attempts with the non-decreasing delays 1 s then 2 s and end in a logged,
non-raised network failure, any non-connection request error is raised to
the wrapper without retry, and a non-2xx HTTP response is returned without
retry, logged as an HTTP failure and never raises. -/
theorem notifier_retry_policy :
    ∀ outcomes : Nat → HttpAttempt,
      (postWithRetryModel outcomes).attempts ≤ 3 ∧
      (∀ i, i < (postWithRetryModel outcomes).delays.length →
        (postWithRetryModel outcomes).delays.get? i = some (2 ^ i)) ∧
      ((∀ a, outcomes a = .connFail "conn") →
        (postWithRetryModel outcomes).attempts = 3 ∧
        (postWithRetryModel outcomes).delays = [1, 2] ∧
        (postWithRetryModel outcomes).result = .error "conn" ∧
        submitResultsModel outcomes = .networkFailure "conn") ∧
      (∀ m, outcomes 0 = .otherFail m →
        (postWithRetryModel outcomes).attempts = 1 ∧
        (postWithRetryModel outcomes).result = .error m) ∧
      (∀ s, outcomes 0 = .resp s → ¬(200 ≤ s ∧ s < 300) →
        (postWithRetryModel outcomes).attempts = 1 ∧
        (postWithRetryModel outcomes).delays = [] ∧
        submitResultsModel outcomes = .httpFailure s) := by
  intro outcomes
  refine ⟨postWithRetryGo_attempts_le outcomes 3 0, ?_, ?_, ?_, ?_⟩
  · intro i hi
    have := postWithRetryGo_delays outcomes 3 0 i
    rw [postWithRetryModel]
    rw [postWithRetryModel] at hi
    rw [this, if_pos hi]
    rw [Nat.zero_add]
  · intro hconn
    have e0 := hconn 0
    have e1 := hconn 1
    have e2 := hconn 2
    refine ⟨?_, ?_, ?_, ?_⟩ <;>
      simp [postWithRetryModel, postWithRetryGo, e0, e1, e2, submitResultsModel]
  · intro m hm
    exact ⟨by simp [postWithRetryModel, postWithRetryGo, hm],
           by simp [postWithRetryModel, postWithRetryGo, hm]⟩
  · intro s hs hbad
    have h200 : s ≠ 200 := by omega
    refine ⟨by simp [postWithRetryModel, postWithRetryGo, hs], ?_, ?_⟩
    · simp [postWithRetryModel, postWithRetryGo, hs]
    · simp [submitResultsModel, postWithRetryModel, postWithRetryGo, hs, h200]

/-- Witness for C5: three concrete connection failures exhaust the budget
with delays 1 s and 2 s and a logged network failure. -/
theorem notifier_retry_policy_witness :
    (postWithRetryModel (fun _ => .connFail "conn")).attempts = 3 ∧
    (postWithRetryModel (fun _ => .connFail "conn")).delays = [1, 2] ∧
    (postWithRetryModel (fun _ => .connFail "conn")).result = .error "conn" ∧
    submitResultsModel (fun _ => .connFail "conn") = .networkFailure "conn" :=
  (notifier_retry_policy (fun _ => .connFail "conn")).2.2.1 (fun _ => rfl)

/-! ## Task orchestrator (task_service.TaskProcessor) -/

/-- Inbound task request (Models.TaskRequest), restricted to the fields the
orchestrator reads; checks and attachments are opaque to the workflow
modelled here. -/
structure TaskReq where
  email : String
  secret : String
  task : String
  round : Nat
  nonce : String
  brief : String
  evaluation_url : String

/-- Completed-round result (Models.TaskResponse). -/
structure TaskResp where
  email : String
  task : String
  round : Nat
  nonce : String
  repo_url : String
  commit_sha : String
  pages_url : String

/-- Lifecycle status of a tracking record. -/
inductive RecStatus where
  | processing
  | generating_code
  | completed
  | failed
deriving DecidableEq

/-- Effects `process_task` performs after validation (task_service.py lines
107-118). -/
inductive OrchestratorEffect where
  | recordInsert (status : RecStatus)
  | scheduleBackground
deriving DecidableEq

/-- Acceptance payload echo (task_service.py lines 121-130). -/
structure AcceptPayload where
  status : String
  task : String
  round : Nat
  nonce : String
deriving DecidableEq

/-- Embedding of `validate_credentials` (task_service.py lines 77-89). -/
def validateCredentials (cfgSecret provided : String) : Except String Unit :=
  if provided ≠ cfgSecret then .error "Forbidden: Invalid secret key" else .ok ()

/-- Embedding of `process_task` (task_service.py lines 91-130): validation
happens before the tracking record is inserted and before the background
pipeline is scheduled, so a validation error leaves no effect. -/
def processTaskModel (cfgSecret : String) (req : TaskReq) :
    Except String AcceptPayload × List OrchestratorEffect :=
  match validateCredentials cfgSecret req.secret with
  | .error e => (.error e, [])
  | .ok _ =>
    (.ok ⟨"accepted", req.task, req.round, req.nonce⟩,
     [.recordInsert .processing, .scheduleBackground])

/-- C6: a request whose secret differs from the configured secret fails
synchronously with the authorization error and performs no side effect: no
tracking record is inserted and no background work is scheduled. -/
theorem wrong_secret_no_side_effects :
    ∀ (cfgSecret : String) (req : TaskReq), req.secret ≠ cfgSecret →
      processTaskModel cfgSecret req = (.error "Forbidden: Invalid secret key", []) := by
  intro cfgSecret req h
  rw [processTaskModel, validateCredentials, if_pos h]

/-- Witness for C6: a concrete wrong secret is rejected with empty effects. -/
theorem wrong_secret_no_side_effects_witness :
    processTaskModel "expected-secret"
        ⟨"a@b.c", "wrong", "t1", 1, "n1", "brief", "https://cb"⟩ =
      (.error "Forbidden: Invalid secret key", []) :=
  wrong_secret_no_side_effects "expected-secret"
    ⟨"a@b.c", "wrong", "t1", 1, "n1", "brief", "https://cb"⟩ (by decide)

/-- Pipeline step names, in invocation order. -/
inductive StepName where
  | generate
  | createRepo
  | upload
  | pages
deriving DecidableEq

/-- Outcomes of the four remote operations invoked by the background
pipeline for one round. -/
structure PipelineEnv where
  generated : Except String (List CodeFile)
  repoCreated : Except String String
  uploaded : Except String String
  pagesEnabled : Except String String

/-- Embedding of `_process_initial_task_background` /
`_process_revision_task_background` (task_service.py lines 183-264): the
four operations run in sequence, the first failure aborting the remaining
steps; the trace records which steps were invoked. -/
def runPipeline (req : TaskReq) (env : PipelineEnv) :
    Except String TaskResp × List StepName :=
  match env.generated with
  | .error e => (.error e, [.generate])
  | .ok _ =>
    match env.repoCreated with
    | .error e => (.error e, [.generate, .createRepo])
    | .ok repoUrl =>
      match env.uploaded with
      | .error e => (.error e, [.generate, .createRepo, .upload])
      | .ok sha =>
        match env.pagesEnabled with
        | .error e => (.error e, [.generate, .createRepo, .upload, .pages])
        | .ok pagesUrl =>
          (.ok ⟨req.email, req.task, req.round, req.nonce, repoUrl, sha, pagesUrl⟩,
           [.generate, .createRepo, .upload, .pages])

/-- Notification payload posted to the evaluation URL (task_service.py lines
270-279 and 300-307). -/
structure NotifyPayload where
  email : String
  task : String
  round : Nat
  nonce : String
  status : String
  repo_url : Option String
  commit_sha : Option String
  pages_url : Option String
  error : Option String
deriving DecidableEq

/-- Completion payload of `_submit_complete_results`. -/
def successPayload (r : TaskResp) : NotifyPayload :=
  ⟨r.email, r.task, r.round, r.nonce, "completed",
   some r.repo_url, some r.commit_sha, some r.pages_url, none⟩

/-- Failure payload of `_submit_error_results`. -/
def failurePayload (req : TaskReq) (e : String) : NotifyPayload :=
  ⟨req.email, req.task, req.round, req.nonce, "failed", none, none, none, some e⟩

/-- Observable outcome of one `_process_task_background` run: the record's
status history (the record is inserted as processing by `process_task`), the
error attached on failure, the notification payloads sent, and the log lines
of a swallowed notification failure. -/
structure BackgroundTrace where
  statuses : List RecStatus
  errorMsg : Option String
  notified : List NotifyPayload
  logs : List String
deriving DecidableEq

/-- Embedding of `_process_task_background` (task_service.py lines 132-181):
the record moves to generating_code, the pipeline runs, the terminal status
(with result or error attached) is written before the notifier is invoked,
and on the failure path a notifier failure is only logged.  `notifyFails`
says whether the notification attempt raises. -/
def backgroundRun (req : TaskReq) (env : PipelineEnv) (notifyFails : Bool) :
    BackgroundTrace :=
  match (runPipeline req env).1 with
  | .ok r =>
    { statuses := [.processing, .generating_code, .completed]
    , errorMsg := none
    , notified := [successPayload r]
    , logs := [] }
  | .error e =>
    { statuses := [.processing, .generating_code, .failed]
    , errorMsg := some e
    , notified := [failurePayload req e]
    , logs := if notifyFails then ["Failed to submit error results"] else [] }

/-- C3: every record's lifecycle is processing, generating_code, then
completed or failed; any pipeline exception aborts the remaining steps,
marks the record failed with the error attached and sends the failure
payload carrying email, task, round, nonce, status "failed" and the error
string; and a failing notification only logs, leaving the terminal status
and error unchanged. -/
theorem background_lifecycle :
    ∀ (req : TaskReq) (env : PipelineEnv) (b : Bool),
      ((backgroundRun req env b).statuses =
          [RecStatus.processing, .generating_code, .completed] ∨
        (backgroundRun req env b).statuses =
          [RecStatus.processing, .generating_code, .failed]) ∧
      (∀ e, (runPipeline req env).1 = .error e →
        (backgroundRun req env b).statuses =
            [RecStatus.processing, .generating_code, .failed] ∧
        (backgroundRun req env b).errorMsg = some e ∧
        (backgroundRun req env b).notified =
          [⟨req.email, req.task, req.round, req.nonce, "failed", none, none, none, some e⟩]) ∧
      (∀ e, env.generated = .error e → (runPipeline req env).2 = [.generate]) ∧
      (∀ e, env.generated.isOk = true → env.repoCreated = .error e →
        (runPipeline req env).2 = [.generate, .createRepo]) ∧
      (∀ e, env.generated.isOk = true → env.repoCreated.isOk = true →
        env.uploaded = .error e →
        (runPipeline req env).2 = [.generate, .createRepo, .upload]) ∧
      (∀ b2 : Bool, (backgroundRun req env b).statuses = (backgroundRun req env b2).statuses ∧
        (backgroundRun req env b).errorMsg = (backgroundRun req env b2).errorMsg ∧
        (backgroundRun req env b).notified = (backgroundRun req env b2).notified) := by
  intro req env b
  refine ⟨?_, ?_, ?_, ?_, ?_, ?_⟩
  · cases h : (runPipeline req env).1 with
    | ok r => exact Or.inl (by simp [backgroundRun, h])
    | error e => exact Or.inr (by simp [backgroundRun, h])
  · intro e he
    refine ⟨by simp [backgroundRun, he], by simp [backgroundRun, he], ?_⟩
    simp [backgroundRun, he, failurePayload]
  · intro e he
    simp [runPipeline, he]
  · intro e hgen he
    cases hg : env.generated with
    | error e2 => rw [hg] at hgen; cases hgen
    | ok files => simp [runPipeline, hg, he]
  · intro e hgen hrepo hup
    cases hg : env.generated with
    | error e2 => rw [hg] at hgen; cases hgen
    | ok files =>
      cases hr : env.repoCreated with
      | error e2 => rw [hr] at hrepo; cases hrepo
      | ok url => simp [runPipeline, hg, hr, hup]
  · intro b2
    cases h : (runPipeline req env).1 <;> simp [backgroundRun, h]

/-- Witness for C3: a concrete failing generation marks the record failed
with the error attached and notifies with the failure payload. -/
theorem background_lifecycle_witness :
    (backgroundRun ⟨"a@b.c", "s", "t1", 1, "n1", "brief", "https://cb"⟩
        ⟨.error "AI down", .ok "u", .ok "sha", .ok "p"⟩ true).statuses =
        [RecStatus.processing, .generating_code, .failed] ∧
      (backgroundRun ⟨"a@b.c", "s", "t1", 1, "n1", "brief", "https://cb"⟩
        ⟨.error "AI down", .ok "u", .ok "sha", .ok "p"⟩ true).errorMsg = some "AI down" ∧
      (backgroundRun ⟨"a@b.c", "s", "t1", 1, "n1", "brief", "https://cb"⟩
        ⟨.error "AI down", .ok "u", .ok "sha", .ok "p"⟩ true).notified =
        [⟨"a@b.c", "t1", 1, "n1", "failed", none, none, none, some "AI down"⟩] :=
  (background_lifecycle ⟨"a@b.c", "s", "t1", 1, "n1", "brief", "https://cb"⟩
      ⟨.error "AI down", .ok "u", .ok "sha", .ok "p"⟩ true).2.1 "AI down" rfl

end TdsP1
